import Mathlib

set_option maxRecDepth 8192

/-!
# Verification of the hexcrypt text/image transform

Shallow embedding of the core transform of the `hexcrypt` repository
(`src/encrypt.rs`, `src/decrypt.rs`, `src/error.rs`).

Modelling conventions:
* Byte buffers are `List Nat` (each entry is one 8-bit value); UTF-8 strings
  are represented by their byte sequences.
* Machine integers are modelled as `Nat`/`Int` with explicit reductions
  modulo `2^32` where the source casts through `u32`/`i32` (release-mode
  wrapping semantics for the `as` casts and for the `i32` subtraction of
  `encrypt.rs:51`; a debug build panics where the `u32` product or the
  `i32` subtraction overflows, never producing a value).
* The `f32` square-root computation of the default image size is modelled as
  exact real arithmetic (it agrees with the `f32` computation for all values
  up to `2^24`, where `f32` represents every integer exactly); theorems about
  the default size carry the corresponding bound.
* File I/O and the PNG codec are outside the transform and are not modelled;
  the encoder is the function from text bytes to the RGB pixel buffer
  (width, height, pixel bytes) and the decoder the function from the raw
  pixel bytes back to text bytes.
-/

/-- The error taxonomy of `src/error.rs` (`HexCryptError`).  Payloads that
only carry diagnostics irrelevant to the claims (`io::Error`, `ImageError`,
`FromUtf8Error`) are dropped; `InvalidImageSize` keeps the offending string
(as a character list) and `CannotCreateImage` the attempted dimensions. -/
inductive HexCryptError where
  | IoError
  | InvalidImageSize (s : List Char)
  | CannotCreateImage (w h : Nat)
  | ImageError
  | BytesToString
deriving DecidableEq, Repr

/-- State of the UTF-8 validation automaton: how many continuation bytes
are still expected, and which range the next one must lie in. -/
inductive Utf8State where
  | start
  /-- one continuation byte (`0x80..=0xBF`) expected -/
  | one
  /-- two more bytes; the next must be `0xA0..=0xBF` (after a leading `0xE0`) -/
  | twoA
  /-- two more bytes; the next must be `0x80..=0xBF` (after `0xE1..=0xEC` or `0xEE..=0xEF`) -/
  | two
  /-- two more bytes; the next must be `0x80..=0x9F` (after `0xED`; excludes surrogates) -/
  | twoD
  /-- three more bytes; the next must be `0x90..=0xBF` (after a leading `0xF0`) -/
  | threeB
  /-- three more bytes; the next must be `0x80..=0xBF` (after `0xF1..=0xF3`) -/
  | three
  /-- three more bytes; the next must be `0x80..=0x8F` (after `0xF4`; keeps code points below `0x110000`) -/
  | threeC
  | bad
deriving DecidableEq, Repr

/-- One step of the UTF-8 validation automaton: exactly the byte-range
table (RFC 3629) enforced by Rust's `String::from_utf8` used at
`decrypt.rs:39`.  From `start`, a byte `≤ 0x7F` is a complete character;
`0xC2..=0xDF` opens a 2-byte sequence; `0xE0`/`0xE1..=0xEC`/`0xED`/
`0xEE..=0xEF` open 3-byte sequences with the first-continuation
restrictions of the table; `0xF0`/`0xF1..=0xF3`/`0xF4` open 4-byte
sequences likewise; everything else (`0x80..=0xC1`, `0xF5..`) is invalid. -/
def utf8Step (s : Utf8State) (b : Nat) : Utf8State :=
  match s with
  | .start =>
    if b ≤ 0x7F then .start
    else if 0xC2 ≤ b ∧ b ≤ 0xDF then .one
    else if b = 0xE0 then .twoA
    else if 0xE1 ≤ b ∧ b ≤ 0xEC then .two
    else if b = 0xED then .twoD
    else if 0xEE ≤ b ∧ b ≤ 0xEF then .two
    else if b = 0xF0 then .threeB
    else if 0xF1 ≤ b ∧ b ≤ 0xF3 then .three
    else if b = 0xF4 then .threeC
    else .bad
  | .one => if 0x80 ≤ b ∧ b ≤ 0xBF then .start else .bad
  | .twoA => if 0xA0 ≤ b ∧ b ≤ 0xBF then .one else .bad
  | .two => if 0x80 ≤ b ∧ b ≤ 0xBF then .one else .bad
  | .twoD => if 0x80 ≤ b ∧ b ≤ 0x9F then .one else .bad
  | .threeB => if 0x90 ≤ b ∧ b ≤ 0xBF then .two else .bad
  | .three => if 0x80 ≤ b ∧ b ≤ 0xBF then .two else .bad
  | .threeC => if 0x80 ≤ b ∧ b ≤ 0x8F then .two else .bad
  | .bad => .bad

/-- UTF-8 validity of a byte sequence: the validation automaton, run from
`start` over the whole buffer, ends in `start` (no invalid byte and no
truncated trailing sequence). -/
def validUtf8 (l : List Nat) : Bool := l.foldl utf8Step .start == .start

/-- `String::from_utf8` of `decrypt.rs:39`: the byte buffer itself on
success (a Rust `String` is exactly its UTF-8 bytes), `BytesToString` on
invalid input (the `#[from] FromUtf8Error` conversion of `error.rs`). -/
def fromUtf8 (buf : List Nat) : Except HexCryptError (List Nat) :=
  if validUtf8 buf then Except.ok buf else Except.error HexCryptError.BytesToString

/-- `text_nulled.trim_matches(char::from(0))` of `decrypt.rs:40`: removes
NUL characters from both ends of the string.  In valid UTF-8 the NUL
character occupies exactly the byte `0x00` (continuation bytes are
`≥ 0x80`), so char-level trimming is byte-level trimming of `0`s. -/
def trimNulls (l : List Nat) : List Nat :=
  (((l.dropWhile (· == 0)).reverse).dropWhile (· == 0)).reverse

/-- The decoder core of `decrypt.rs:32-51`: interpret the raw RGB pixel
bytes as UTF-8 and trim NUL characters from both ends.  (Loading the image
and writing the output file are I/O glue around this function.) -/
def decryptBytes (buf : List Nat) : Except HexCryptError (List Nat) :=
  match fromUtf8 buf with
  | Except.ok s => Except.ok (trimNulls s)
  | Except.error e => Except.error e

/-- Fuel-driven search for the least `k₀ ≥ k` with `m ≤ k₀ * k₀`. -/
def csGo (m : Nat) : Nat → Nat → Nat
  | 0, k => k
  | fuel + 1, k => if m ≤ k * k then k else csGo m fuel (k + 1)

/-- `⌈√m⌉`: the least `k` with `m ≤ k * k`.  Models
`(m as f32).sqrt().ceil() as u32` of `encrypt.rs:46` (the `f32`
computation is exact for `m ≤ 2^24`). -/
def ceilSqrt (m : Nat) : Nat := csGo m m 0

/-- The default-size computation of `encrypt.rs:45-48`:
`n = ceil(sqrt(buf.len() / 3))`, giving a square `(n, n)` image. -/
def defaultSize (len : Nat) : Nat × Nat :=
  (ceilSqrt (len / 3), ceilSqrt (len / 3))

/-- Reinterpretation of a `u32`-wrapped value as `i32` (the `as i32` casts
of `encrypt.rs:51`, release-mode semantics): reduce modulo `2^32` and read
values `≥ 2^31` as negative. -/
def toI32 (n : Nat) : Int :=
  if n % 4294967296 < 2147483648 then ((n % 4294967296 : Nat) : Int)
  else ((n % 4294967296 : Nat) : Int) - 4294967296

/-- An RGB image: dimensions plus the flat pixel byte buffer. -/
abbrev RgbImage := Nat × Nat × List Nat

/-- Modelled from the spec: `RgbImage::from_raw(width, height, buf)`
(`encrypt.rs:68`) is external image-crate code, absent from `src/`; the
spec states that pixel-buffer construction fails exactly when the byte
buffer length does not equal `width * height * 3`. -/
def rgbFromRaw (w h : Nat) (buf : List Nat) : Option RgbImage :=
  if buf.length = w * h * 3 then some (w, h, buf) else none

/-- `RgbImage::from_raw(..).ok_or(CannotCreateImage(w, h))` of
`encrypt.rs:68`. -/
def constructImage (w h : Nat) (buf : List Nat) : Except HexCryptError RgbImage :=
  match rgbFromRaw w h buf with
  | some img => Except.ok img
  | none => Except.error (HexCryptError.CannotCreateImage w h)

/-- Size resolution of `encrypt.rs:43-49`: an explicit `(w, h)` when given,
the square default size otherwise. -/
def resolveSize (len : Nat) : Option (Nat × Nat) → Nat × Nat
  | some s => s
  | none => defaultSize len

/-- Wrapping of an integer into the `i32` range `[-2^31, 2^31)` (reduce
modulo `2^32`, read values `≥ 2^31` as negative): the result of `i32`
arithmetic in release mode.  Applied to the subtraction of
`encrypt.rs:51`, whose result Rust wraps back into `i32` (a debug build
panics where the subtraction overflows). -/
def wrapI32 (x : Int) : Int :=
  if x % 4294967296 < 2147483648 then x % 4294967296
  else x % 4294967296 - 4294967296

/-- The padding and packing step of `encrypt.rs:51-68`:
`diff = (w * h) as i32 - (buf.len() / 3) as i32` — an `i32` subtraction of
the two cast operands, so its result is wrapped back into the `i32` range
(release semantics; a debug build panics where it overflows); a negative
`diff` fails with `CannotCreateImage`, otherwise `diff` zero pixels
(`[0, 0, 0]` each) are appended and the pixel buffer is constructed. -/
def padAndPack (w h : Nat) (buf : List Nat) : Except HexCryptError RgbImage :=
  if wrapI32 (toI32 (w * h) - toI32 (buf.length / 3)) < 0 then
    Except.error (HexCryptError.CannotCreateImage w h)
  else
    constructImage w h
      (buf ++ List.replicate (3 * (wrapI32 (toI32 (w * h) - toI32 (buf.length / 3))).toNat) 0)

/-- The encoder core of `encrypt.rs:35-72`: resolve the target size from
the (already parsed) optional explicit dimensions, then pad and pack the
text bytes into an RGB pixel buffer.  (Reading the text file and saving
the PNG are I/O glue around this function.) -/
def encryptBytes (buf : List Nat) (size : Option (Nat × Nat)) : Except HexCryptError RgbImage :=
  padAndPack (resolveSize buf.length size).1 (resolveSize buf.length size).2 buf

/-- Encoding with the default size followed by decoding of the resulting
pixel buffer. -/
def roundTrip (text : List Nat) : Except HexCryptError (List Nat) :=
  match encryptBytes text none with
  | Except.ok img => decryptBytes img.2.2
  | Except.error e => Except.error e

/-- `s.split_once('x')` of `encrypt.rs:95`: split at the first `'x'`,
returning the parts before and after it. -/
def splitOnceX : List Char → Option (List Char × List Char)
  | [] => none
  | c :: rest =>
    if c = 'x' then some ([], rest)
    else
      match splitOnceX rest with
      | some (a, b) => some (c :: a, b)
      | none => none

/-- An ASCII decimal digit. -/
def isDigit (c : Char) : Bool := decide ('0' ≤ c) && decide (c ≤ '9')

/-- Decimal value of a digit string. -/
def digitsVal (s : List Char) : Nat :=
  s.foldl (fun acc c => acc * 10 + (c.toNat - 48)) 0

/-- Rust's `str::parse::<u32>` (`u32::from_str`): an optional leading `'+'`,
then one or more ASCII digits, value below `2^32`; anything else
(including overflow) is a parse error. -/
def parseU32 (s : List Char) : Option Nat :=
  let t := match s with
    | '+' :: rest => rest
    | _ => s
  if t = [] then none
  else if t.all isDigit then
    if digitsVal t < 4294967296 then some (digitsVal t) else none
  else none

/-- `parse_size` of `encrypt.rs:94-101`: split at the first `'x'` and parse
both parts as `u32`; any failure yields `InvalidImageSize` carrying the
original string. -/
def parseSize (s : List Char) : Except HexCryptError (Nat × Nat) :=
  match splitOnceX s with
  | none => Except.error (HexCryptError.InvalidImageSize s)
  | some (a, b) =>
    match parseU32 a with
    | none => Except.error (HexCryptError.InvalidImageSize s)
    | some w =>
      match parseU32 b with
      | none => Except.error (HexCryptError.InvalidImageSize s)
      | some h => Except.ok (w, h)

/-- The full encoder including size-string parsing, as `encrypt` of
`encrypt.rs` composes `parse_size` with the packing steps. -/
def encryptWithSpec (buf : List Nat) (size : Option (List Char)) :
    Except HexCryptError RgbImage :=
  match size with
  | some s =>
    match parseSize s with
    | Except.ok wh => encryptBytes buf (some wh)
    | Except.error e => Except.error e
  | none => encryptBytes buf none

/-- The spec's size-string pattern, written from the spec's words: the
string is `<integer>x<integer>`, i.e. it decomposes at some `'x'` into two
parts that both parse as unsigned 32-bit values. -/
def SpecMatch (s : List Char) : Prop :=
  ∃ i : Fin s.length,
    s.get i = 'x' ∧
    (parseU32 (s.take i.1)).isSome = true ∧
    (parseU32 (s.drop (i.1 + 1))).isSome = true

instance : DecidablePred SpecMatch := fun s => by
  unfold SpecMatch; infer_instance

/-- A Unicode scalar value: below `0x110000` and not a surrogate. -/
def ScalarValue (v : Nat) : Prop :=
  v < 0x110000 ∧ (v < 0xD800 ∨ 0xDFFF < v)

instance : DecidablePred ScalarValue := fun v => by
  unfold ScalarValue; infer_instance

/-- The UTF-8 encoding of a scalar value (RFC 3629). -/
def utf8Encode (v : Nat) : List Nat :=
  if v < 0x80 then [v]
  else if v < 0x800 then [0xC0 + v / 64, 0x80 + v % 64]
  else if v < 0x10000 then [0xE0 + v / 4096, 0x80 + v / 64 % 64, 0x80 + v % 64]
  else [0xF0 + v / 262144, 0x80 + v / 4096 % 64, 0x80 + v / 64 % 64, 0x80 + v % 64]

/-- A byte sequence is UTF-8-decodable: it is the concatenation of the
UTF-8 encodings of a sequence of scalar values. -/
def Utf8Decomposes (l : List Nat) : Prop :=
  ∃ vs : List Nat, (∀ v ∈ vs, ScalarValue v) ∧ l = (vs.map utf8Encode).flatten

example : validUtf8 [72, 105] = true := by decide
example : validUtf8 [0xFF] = false := by decide
example : validUtf8 [0xC3, 0xA9] = true := by decide
example : validUtf8 [0xC3] = false := by decide
example : validUtf8 [0xED, 0xA0, 0x80] = false := by decide
example : ceilSqrt 0 = 0 := by decide
example : ceilSqrt 1 = 1 := by decide
example : ceilSqrt 2 = 2 := by decide
example : ceilSqrt 9 = 3 := by decide
example : ceilSqrt 10 = 4 := by decide
example : defaultSize 3 = (1, 1) := by decide
example : defaultSize 4 = (1, 1) := by decide
example : encryptBytes [72, 105, 33] none = Except.ok (1, 1, [72, 105, 33]) := rfl
example : decryptBytes [0, 0, 0] = Except.ok [] := rfl
example : roundTrip [65, 66, 67] = Except.ok [65, 66, 67] := rfl
example : parseSize ['1', '6', 'x', '3', '2'] = Except.ok (16, 32) := rfl
example : parseSize ['1', '6'] = Except.error (HexCryptError.InvalidImageSize ['1', '6']) := rfl
example : encryptBytes [97, 98, 99] (some (2, 2)) =
    Except.ok (2, 2, [97, 98, 99, 0, 0, 0, 0, 0, 0, 0, 0, 0]) := rfl

/-! ## Arithmetic lemmas: `ceilSqrt` and `toI32` -/

theorem csGo_spec (m : Nat) : ∀ fuel k, m ≤ (k + fuel) * (k + fuel) →
    m ≤ csGo m fuel k * csGo m fuel k ∧ k ≤ csGo m fuel k ∧
      ∀ j, k ≤ j → m ≤ j * j → csGo m fuel k ≤ j := by
  intro fuel
  induction fuel with
  | zero =>
    intro k h
    refine ⟨by simpa using h, Nat.le_refl k, fun j hk _ => ?_⟩
    simpa [csGo] using hk
  | succ fuel ih =>
    intro k h
    by_cases hk : m ≤ k * k
    · exact ⟨by simp [csGo, hk], by simp [csGo, hk],
        fun j hj _ => by simpa [csGo, hk] using hj⟩
    · have hrw : csGo m (fuel + 1) k = csGo m fuel (k + 1) := by
        simp [csGo, hk]
      have h' : m ≤ (k + 1 + fuel) * (k + 1 + fuel) := by
        have : k + (fuel + 1) = k + 1 + fuel := by omega
        rwa [this] at h
      obtain ⟨h1, h2, h3⟩ := ih (k + 1) h'
      refine ⟨by rwa [hrw], by rw [hrw]; omega, ?_⟩
      intro j hkj hj
      have hkj' : k + 1 ≤ j := by
        rcases Nat.eq_or_lt_of_le hkj with rfl | hlt
        · exact absurd hj hk
        · omega
      rw [hrw]; exact h3 j hkj' hj

theorem le_ceilSqrt_sq (m : Nat) : m ≤ ceilSqrt m * ceilSqrt m := by
  have hm : m ≤ (0 + m) * (0 + m) := by
    rcases Nat.eq_zero_or_pos m with rfl | hpos
    · simp
    · calc m = m * 1 := by omega
        _ ≤ m * m := Nat.mul_le_mul_left m hpos
        _ = (0 + m) * (0 + m) := by simp
  exact (csGo_spec m m 0 hm).1

theorem ceilSqrt_le {m k : Nat} (h : m ≤ k * k) : ceilSqrt m ≤ k := by
  have hm : m ≤ (0 + m) * (0 + m) := by
    rcases Nat.eq_zero_or_pos m with rfl | hpos
    · simp
    · calc m = m * 1 := by omega
        _ ≤ m * m := Nat.mul_le_mul_left m hpos
        _ = (0 + m) * (0 + m) := by simp
  exact (csGo_spec m m 0 hm).2.2 k (Nat.zero_le k) h

theorem ceilSqrt_min {m : Nat} (h : ceilSqrt m ≠ 0) :
    (ceilSqrt m - 1) * (ceilSqrt m - 1) < m := by
  by_contra hc
  have hle : m ≤ (ceilSqrt m - 1) * (ceilSqrt m - 1) := by omega
  have := ceilSqrt_le hle
  omega

theorem ceilSqrt_eq {m k : Nat} (hk : 0 < k) (h1 : (k - 1) * (k - 1) < m)
    (h2 : m ≤ k * k) : ceilSqrt m = k := by
  have ha : ceilSqrt m ≤ k := ceilSqrt_le h2
  have hb : m ≤ ceilSqrt m * ceilSqrt m := le_ceilSqrt_sq m
  by_contra hne
  have hlt : ceilSqrt m ≤ k - 1 := by omega
  have : ceilSqrt m * ceilSqrt m ≤ (k - 1) * (k - 1) := Nat.mul_le_mul hlt hlt
  omega

theorem toI32_of_lt {n : Nat} (h : n < 2147483648) : toI32 n = (n : Int) := by
  unfold toI32
  rw [Nat.mod_eq_of_lt (by omega)]
  simp [h]

theorem toI32_of_big {n : Nat} (h1 : 2147483648 ≤ n) (h2 : n < 4294967296) :
    toI32 n = (n : Int) - 4294967296 := by
  unfold toI32
  rw [Nat.mod_eq_of_lt (by omega)]
  have : ¬ n < 2147483648 := by omega
  simp [this]

theorem wrapI32_of_range {x : Int} (h1 : -2147483648 ≤ x) (h2 : x < 2147483648) :
    wrapI32 x = x := by
  unfold wrapI32
  split_ifs with h <;> omega

/-! ## List lemmas: NUL trimming -/

theorem dropWhile_zeros_append (k : Nat) (l : List Nat) :
    (List.replicate k 0 ++ l).dropWhile (· == 0) = l.dropWhile (· == 0) := by
  induction k with
  | zero => simp
  | succ k ih => simp [List.replicate_succ, List.dropWhile_cons, ih]

theorem dropWhile_of_forall_ne {l : List Nat} (h : ∀ b ∈ l, b ≠ 0) :
    l.dropWhile (· == 0) = l := by
  cases l with
  | nil => rfl
  | cons x xs =>
    have hx : x ≠ 0 := h x (List.mem_cons_self x xs)
    simp [List.dropWhile_cons, hx]

theorem head?_dropWhile_zero (l : List Nat) :
    ∀ y, (l.dropWhile (· == 0)).head? = some y → y ≠ 0 := by
  induction l with
  | nil => intro y hy; simp at hy
  | cons x xs ih =>
    intro y hy
    rw [List.dropWhile_cons] at hy
    by_cases hx : x = 0
    · rw [if_pos (by simp [hx])] at hy
      exact ih y hy
    · rw [if_neg (by simp [hx])] at hy
      simp at hy
      omega

theorem takeWhile_zeros (l : List Nat) :
    l.takeWhile (· == 0) = List.replicate (l.takeWhile (· == 0)).length 0 := by
  induction l with
  | nil => rfl
  | cons x xs ih =>
    by_cases hx : x = 0
    · subst hx
      simp only [List.takeWhile_cons, beq_self_eq_true, if_pos]
      simp [List.replicate_succ, ← ih]
    · simp [List.takeWhile_cons, hx]

theorem trimNulls_append_zeros (T : List Nat) (k : Nat) (h : (0 : Nat) ∉ T) :
    trimNulls (T ++ List.replicate k 0) = T := by
  cases T with
  | nil =>
    show trimNulls ([] ++ List.replicate k 0) = []
    simp only [List.nil_append, trimNulls]
    rw [show (List.replicate k 0).dropWhile (· == 0) =
          (List.replicate k 0 ++ ([] : List Nat)).dropWhile (· == 0) by simp,
        dropWhile_zeros_append]
    simp
  | cons a T' =>
    have ha : a ≠ 0 := fun h0 => h (h0 ▸ List.mem_cons_self a T')
    have hT' : ∀ b ∈ T', b ≠ 0 := fun b hb h0 =>
      h (h0 ▸ List.mem_cons_of_mem a hb)
    unfold trimNulls
    rw [List.cons_append, List.dropWhile_cons, if_neg (by simp [ha])]
    rw [List.reverse_cons, List.reverse_append, List.reverse_replicate,
      List.append_assoc, dropWhile_zeros_append]
    rw [dropWhile_of_forall_ne (by
      intro b hb
      rcases List.mem_append.mp hb with hmem | hmem
      · exact hT' b (List.mem_reverse.mp hmem)
      · simp at hmem
        exact hmem ▸ ha)]
    simp

theorem trim_decomposition (l : List Nat) :
    ∃ a b, l = List.replicate a 0 ++ trimNulls l ++ List.replicate b 0 ∧
      (trimNulls l).head? ≠ some 0 ∧ (trimNulls l).getLast? ≠ some 0 := by
  set p : Nat → Bool := (· == 0) with hp
  set l1 := l.dropWhile p with hl1
  set t := trimNulls l with ht
  have htrev : t.reverse = l1.reverse.dropWhile p := by
    rw [ht, hl1]; simp [trimNulls, p]
  have hdecomp1 : l = List.replicate (l.takeWhile p).length 0 ++ l1 := by
    conv_lhs => rw [← List.takeWhile_append_dropWhile (p := p) (l := l)]
    rw [← takeWhile_zeros]
  have hdecomp2 : l1.reverse = List.replicate (l1.reverse.takeWhile p).length 0 ++ t.reverse := by
    rw [htrev]
    conv_lhs => rw [← List.takeWhile_append_dropWhile (p := p) (l := l1.reverse)]
    rw [← takeWhile_zeros]
  have hl1t : l1 = t ++ List.replicate (l1.reverse.takeWhile p).length 0 := by
    have := congrArg List.reverse hdecomp2
    simpa [List.reverse_append, List.reverse_replicate] using this
  refine ⟨(l.takeWhile p).length, (l1.reverse.takeWhile p).length, ?_, ?_, ?_⟩
  · have hstep := congrArg
      (fun z => List.replicate (l.takeWhile p).length 0 ++ z) hl1t
    simp only at hstep
    exact hdecomp1.trans (hstep.trans (List.append_assoc _ _ _).symm)
  · intro hhead
    cases htc : t with
    | nil => rw [htc] at hhead; simp at hhead
    | cons y ys =>
      rw [htc] at hhead
      simp at hhead
      have hl1head : l1.head? = some y := by
        rw [hl1t, htc]; simp
      have := head?_dropWhile_zero l y (by rw [← hl1]; exact hl1head)
      omega
  · intro hlast
    have hrev : t.reverse.head? = some 0 := by
      rw [List.head?_reverse]; exact hlast
    rw [htrev] at hrev
    have := head?_dropWhile_zero l1.reverse 0 hrev
    omega

/-! ## UTF-8 encoder shape lemmas -/

theorem utf8Encode_three {b c1 c2 : Nat} (hb : 0xE0 ≤ b ∧ b ≤ 0xEF)
    (hc1 : 0x80 ≤ c1 ∧ c1 ≤ 0xBF) (hc2 : 0x80 ≤ c2 ∧ c2 ≤ 0xBF)
    (hge : 0x800 ≤ (b - 0xE0) * 4096 + (c1 - 0x80) * 64 + (c2 - 0x80)) :
    utf8Encode ((b - 0xE0) * 4096 + (c1 - 0x80) * 64 + (c2 - 0x80)) = [b, c1, c2] := by
  unfold utf8Encode
  have d1 : ¬ (b - 0xE0) * 4096 + (c1 - 0x80) * 64 + (c2 - 0x80) < 0x80 := by omega
  have d2 : ¬ (b - 0xE0) * 4096 + (c1 - 0x80) * 64 + (c2 - 0x80) < 0x800 := by omega
  have d3 : (b - 0xE0) * 4096 + (c1 - 0x80) * 64 + (c2 - 0x80) < 0x10000 := by omega
  rw [if_neg d1, if_neg d2, if_pos d3]
  have e0 : 0xE0 + ((b - 0xE0) * 4096 + (c1 - 0x80) * 64 + (c2 - 0x80)) / 4096 = b := by
    omega
  have e1 : 0x80 + ((b - 0xE0) * 4096 + (c1 - 0x80) * 64 + (c2 - 0x80)) / 64 % 64 = c1 := by
    omega
  have e2 : 0x80 + ((b - 0xE0) * 4096 + (c1 - 0x80) * 64 + (c2 - 0x80)) % 64 = c2 := by
    omega
  rw [e0, e1, e2]

theorem utf8Encode_four {b c1 c2 c3 : Nat} (hb : 0xF0 ≤ b ∧ b ≤ 0xF4)
    (hc1 : 0x80 ≤ c1 ∧ c1 ≤ 0xBF) (hc2 : 0x80 ≤ c2 ∧ c2 ≤ 0xBF)
    (hc3 : 0x80 ≤ c3 ∧ c3 ≤ 0xBF)
    (hge : 0x10000 ≤ (b - 0xF0) * 262144 + (c1 - 0x80) * 4096 + (c2 - 0x80) * 64 + (c3 - 0x80)) :
    utf8Encode ((b - 0xF0) * 262144 + (c1 - 0x80) * 4096 + (c2 - 0x80) * 64 + (c3 - 0x80)) =
      [b, c1, c2, c3] := by
  unfold utf8Encode
  have d1 : ¬ (b - 0xF0) * 262144 + (c1 - 0x80) * 4096 + (c2 - 0x80) * 64 + (c3 - 0x80)
      < 0x80 := by omega
  have d2 : ¬ (b - 0xF0) * 262144 + (c1 - 0x80) * 4096 + (c2 - 0x80) * 64 + (c3 - 0x80)
      < 0x800 := by omega
  have d3 : ¬ (b - 0xF0) * 262144 + (c1 - 0x80) * 4096 + (c2 - 0x80) * 64 + (c3 - 0x80)
      < 0x10000 := by omega
  rw [if_neg d1, if_neg d2, if_neg d3]
  have e0 : 0xF0 +
      ((b - 0xF0) * 262144 + (c1 - 0x80) * 4096 + (c2 - 0x80) * 64 + (c3 - 0x80)) / 262144
        = b := by omega
  have e1 : 0x80 +
      ((b - 0xF0) * 262144 + (c1 - 0x80) * 4096 + (c2 - 0x80) * 64 + (c3 - 0x80)) / 4096 % 64
        = c1 := by omega
  have e2 : 0x80 +
      ((b - 0xF0) * 262144 + (c1 - 0x80) * 4096 + (c2 - 0x80) * 64 + (c3 - 0x80)) / 64 % 64
        = c2 := by omega
  have e3 : 0x80 +
      ((b - 0xF0) * 262144 + (c1 - 0x80) * 4096 + (c2 - 0x80) * 64 + (c3 - 0x80)) % 64
        = c3 := by omega
  rw [e0, e1, e2, e3]

/-! ## UTF-8 automaton lemmas -/

theorem foldl_bad (l : List Nat) : l.foldl utf8Step .bad = .bad := by
  induction l with
  | nil => rfl
  | cons b r ihr => simpa [List.foldl_cons, utf8Step] using ihr

theorem foldl_expect_dest {s s' : Utf8State} {lo hi : Nat}
    (hstep : ∀ b, utf8Step s b = if lo ≤ b ∧ b ≤ hi then s' else .bad)
    (rest : List Nat) (h : rest.foldl utf8Step s = .start) (hs : s ≠ .start) :
    ∃ c r, rest = c :: r ∧ (lo ≤ c ∧ c ≤ hi) ∧ r.foldl utf8Step s' = .start := by
  cases rest with
  | nil => exact absurd h hs
  | cons c r =>
    rw [List.foldl_cons, hstep c] at h
    by_cases hc : lo ≤ c ∧ c ≤ hi
    · rw [if_pos hc] at h
      exact ⟨c, r, rfl, hc, h⟩
    · rw [if_neg hc, foldl_bad] at h
      exact absurd h (by decide)

theorem foldl_start_encode {v : Nat} (hs : ScalarValue v) :
    (utf8Encode v).foldl utf8Step .start = .start := by
  obtain ⟨hv1, hv2⟩ := hs
  by_cases h1 : v < 0x80
  · have henc : utf8Encode v = [v] := by
      unfold utf8Encode; rw [if_pos h1]
    rw [henc]
    simp only [List.foldl_cons, List.foldl_nil]
    simp only [utf8Step]; rw [if_pos (by omega)]
  · by_cases h2 : v < 0x800
    · have henc : utf8Encode v = [0xC0 + v / 64, 0x80 + v % 64] := by
        unfold utf8Encode; rw [if_neg h1, if_pos h2]
      rw [henc]
      simp only [List.foldl_cons, List.foldl_nil]
      have s1 : utf8Step .start (0xC0 + v / 64) = .one := by
        simp only [utf8Step]; rw [if_neg (by omega), if_pos (by omega)]
      have s2 : utf8Step .one (0x80 + v % 64) = .start := by
        simp only [utf8Step]; rw [if_pos (by omega)]
      rw [s1, s2]
    · by_cases h3 : v < 0x10000
      · have henc : utf8Encode v = [0xE0 + v / 4096, 0x80 + v / 64 % 64, 0x80 + v % 64] := by
          unfold utf8Encode; rw [if_neg h1, if_neg h2, if_pos h3]
        rw [henc]
        simp only [List.foldl_cons, List.foldl_nil]
        have s3 : utf8Step .one (0x80 + v % 64) = .start := by
          simp only [utf8Step]; rw [if_pos (by omega)]
        by_cases hA : v < 0x1000
        · have s1 : utf8Step .start (0xE0 + v / 4096) = .twoA := by
            rw [show 0xE0 + v / 4096 = 0xE0 by omega]; decide
          have s2 : utf8Step .twoA (0x80 + v / 64 % 64) = .one := by
            simp only [utf8Step]; rw [if_pos (by omega)]
          rw [s1, s2, s3]
        · by_cases hB : v < 0xD000
          · have s1 : utf8Step .start (0xE0 + v / 4096) = .two := by
              have c1 : ¬ 0xE0 + v / 4096 ≤ 0x7F := by omega
              have c2 : ¬ (0xC2 ≤ 0xE0 + v / 4096 ∧ 0xE0 + v / 4096 ≤ 0xDF) := by omega
              have c3 : ¬ 0xE0 + v / 4096 = 0xE0 := by omega
              have c4 : 0xE1 ≤ 0xE0 + v / 4096 ∧ 0xE0 + v / 4096 ≤ 0xEC := by omega
              simp only [utf8Step]
              rw [if_neg c1, if_neg c2, if_neg c3, if_pos c4]
            have s2 : utf8Step .two (0x80 + v / 64 % 64) = .one := by
              simp only [utf8Step]; rw [if_pos (by omega)]
            rw [s1, s2, s3]
          · by_cases hC : v < 0xE000
            · have hvd : v < 0xD800 := by
                rcases hv2 with h' | h'
                · exact h'
                · omega
              have s1 : utf8Step .start (0xE0 + v / 4096) = .twoD := by
                rw [show 0xE0 + v / 4096 = 0xED by omega]; decide
              have s2 : utf8Step .twoD (0x80 + v / 64 % 64) = .one := by
                simp only [utf8Step]; rw [if_pos (by omega)]
              rw [s1, s2, s3]
            · have s1 : utf8Step .start (0xE0 + v / 4096) = .two := by
                have c1 : ¬ 0xE0 + v / 4096 ≤ 0x7F := by omega
                have c2 : ¬ (0xC2 ≤ 0xE0 + v / 4096 ∧ 0xE0 + v / 4096 ≤ 0xDF) := by omega
                have c3 : ¬ 0xE0 + v / 4096 = 0xE0 := by omega
                have c4 : ¬ (0xE1 ≤ 0xE0 + v / 4096 ∧ 0xE0 + v / 4096 ≤ 0xEC) := by omega
                have c5 : ¬ 0xE0 + v / 4096 = 0xED := by omega
                have c6 : 0xEE ≤ 0xE0 + v / 4096 ∧ 0xE0 + v / 4096 ≤ 0xEF := by omega
                simp only [utf8Step]
                rw [if_neg c1, if_neg c2, if_neg c3, if_neg c4, if_neg c5, if_pos c6]
              have s2 : utf8Step .two (0x80 + v / 64 % 64) = .one := by
                simp only [utf8Step]; rw [if_pos (by omega)]
              rw [s1, s2, s3]
      · have henc : utf8Encode v =
            [0xF0 + v / 262144, 0x80 + v / 4096 % 64, 0x80 + v / 64 % 64, 0x80 + v % 64] := by
          unfold utf8Encode; rw [if_neg h1, if_neg h2, if_neg h3]
        rw [henc]
        simp only [List.foldl_cons, List.foldl_nil]
        have s3 : utf8Step .two (0x80 + v / 64 % 64) = .one := by
          simp only [utf8Step]; rw [if_pos (by omega)]
        have s4 : utf8Step .one (0x80 + v % 64) = .start := by
          simp only [utf8Step]; rw [if_pos (by omega)]
        by_cases hA : v < 0x40000
        · have s1 : utf8Step .start (0xF0 + v / 262144) = .threeB := by
            rw [show 0xF0 + v / 262144 = 0xF0 by omega]; decide
          have s2 : utf8Step .threeB (0x80 + v / 4096 % 64) = .two := by
            simp only [utf8Step]; rw [if_pos (by omega)]
          rw [s1, s2, s3, s4]
        · by_cases hB : v < 0x100000
          · have s1 : utf8Step .start (0xF0 + v / 262144) = .three := by
              have c1 : ¬ 0xF0 + v / 262144 ≤ 0x7F := by omega
              have c2 : ¬ (0xC2 ≤ 0xF0 + v / 262144 ∧ 0xF0 + v / 262144 ≤ 0xDF) := by omega
              have c3 : ¬ 0xF0 + v / 262144 = 0xE0 := by omega
              have c4 : ¬ (0xE1 ≤ 0xF0 + v / 262144 ∧ 0xF0 + v / 262144 ≤ 0xEC) := by omega
              have c5 : ¬ 0xF0 + v / 262144 = 0xED := by omega
              have c6 : ¬ (0xEE ≤ 0xF0 + v / 262144 ∧ 0xF0 + v / 262144 ≤ 0xEF) := by omega
              have c7 : ¬ 0xF0 + v / 262144 = 0xF0 := by omega
              have c8 : 0xF1 ≤ 0xF0 + v / 262144 ∧ 0xF0 + v / 262144 ≤ 0xF3 := by omega
              simp only [utf8Step]
              rw [if_neg c1, if_neg c2, if_neg c3, if_neg c4, if_neg c5, if_neg c6,
                if_neg c7, if_pos c8]
            have s2 : utf8Step .three (0x80 + v / 4096 % 64) = .two := by
              simp only [utf8Step]; rw [if_pos (by omega)]
            rw [s1, s2, s3, s4]
          · have s1 : utf8Step .start (0xF0 + v / 262144) = .threeC := by
              rw [show 0xF0 + v / 262144 = 0xF4 by omega]; decide
            have s2 : utf8Step .threeC (0x80 + v / 4096 % 64) = .two := by
              simp only [utf8Step]; rw [if_pos (by omega)]
            rw [s1, s2, s3, s4]

theorem utf8_complete_aux : ∀ vs : List Nat, (∀ v ∈ vs, ScalarValue v) →
    ((vs.map utf8Encode).flatten).foldl utf8Step .start = .start := by
  intro vs
  induction vs with
  | nil => intro _; rfl
  | cons v vs ihv =>
    intro h
    simp only [List.map_cons, List.flatten_cons]
    rw [List.foldl_append, foldl_start_encode (h v (List.mem_cons_self v vs))]
    exact ihv (fun u hu => h u (List.mem_cons_of_mem v hu))

theorem utf8_complete (vs : List Nat) (h : ∀ v ∈ vs, ScalarValue v) :
    validUtf8 ((vs.map utf8Encode).flatten) = true := by
  simp only [validUtf8, beq_iff_eq]
  exact utf8_complete_aux vs h

theorem utf8_sound_aux : ∀ n l, l.length ≤ n → validUtf8 l = true → Utf8Decomposes l := by
  intro n
  induction n with
  | zero =>
    intro l hl _
    have hnil : l = [] := List.eq_nil_of_length_eq_zero (by omega)
    subst hnil
    exact ⟨[], by simp, by simp⟩
  | succ n ih =>
    intro l hl hv
    cases l with
    | nil => exact ⟨[], by simp, by simp⟩
    | cons b rest =>
      simp only [List.length_cons] at hl
      simp only [validUtf8, beq_iff_eq, List.foldl_cons] at hv
      by_cases h1 : b ≤ 0x7F
      · rw [show utf8Step .start b = .start by
          simp only [utf8Step]; rw [if_pos h1]] at hv
        obtain ⟨vs, hsc, hj⟩ := ih rest (by omega)
          (by simp only [validUtf8, beq_iff_eq]; exact hv)
        refine ⟨b :: vs, ?_, ?_⟩
        · intro v hv'
          rcases List.mem_cons.mp hv' with rfl | hm
          · exact ⟨by omega, Or.inl (by omega)⟩
          · exact hsc v hm
        · have henc : utf8Encode b = [b] := by
            unfold utf8Encode; rw [if_pos (by omega)]
          simp [henc, hj]
      · by_cases h2 : 0xC2 ≤ b ∧ b ≤ 0xDF
        · rw [show utf8Step .start b = .one by
            simp only [utf8Step]; rw [if_neg h1, if_pos h2]] at hv
          obtain ⟨c, r, rfl, hc, hr⟩ :=
            @foldl_expect_dest .one .start 0x80 0xBF (fun _ => rfl) rest hv (by decide)
          simp only [List.length_cons] at hl
          obtain ⟨vs, hsc, hj⟩ := ih r (by omega)
            (by simp only [validUtf8, beq_iff_eq]; exact hr)
          refine ⟨((b - 0xC0) * 64 + (c - 0x80)) :: vs, ?_, ?_⟩
          · intro v hv'
            rcases List.mem_cons.mp hv' with rfl | hm
            · exact ⟨by omega, Or.inl (by omega)⟩
            · exact hsc v hm
          · have henc : utf8Encode ((b - 0xC0) * 64 + (c - 0x80)) = [b, c] := by
              unfold utf8Encode
              rw [if_neg (by omega), if_pos (by omega)]
              have e1 : 0xC0 + ((b - 0xC0) * 64 + (c - 0x80)) / 64 = b := by omega
              have e2 : 0x80 + ((b - 0xC0) * 64 + (c - 0x80)) % 64 = c := by omega
              rw [e1, e2]
            simp [henc, hj]
        · by_cases h3 : b = 0xE0
          · subst h3
            rw [show utf8Step .start 0xE0 = .twoA by decide] at hv
            obtain ⟨c1, r1, rfl, hc1, hv1⟩ :=
              @foldl_expect_dest .twoA .one 0xA0 0xBF (fun _ => rfl) rest hv (by decide)
            obtain ⟨c2, r2, rfl, hc2, hv2⟩ :=
              @foldl_expect_dest .one .start 0x80 0xBF (fun _ => rfl) r1 hv1 (by decide)
            simp only [List.length_cons] at hl
            obtain ⟨vs, hsc, hj⟩ := ih r2 (by omega)
              (by simp only [validUtf8, beq_iff_eq]; exact hv2)
            refine ⟨((0xE0 - 0xE0) * 4096 + (c1 - 0x80) * 64 + (c2 - 0x80)) :: vs, ?_, ?_⟩
            · intro v hv'
              rcases List.mem_cons.mp hv' with rfl | hm
              · exact ⟨by omega, Or.inl (by omega)⟩
              · exact hsc v hm
            · have henc := @utf8Encode_three 0xE0 c1 c2 (by omega) (by omega)
                (by omega) (by omega)
              simp only [List.map_cons, List.flatten_cons]
              rw [henc, hj]; rfl
          · by_cases h4 : 0xE1 ≤ b ∧ b ≤ 0xEC
            · rw [show utf8Step .start b = .two by
                simp only [utf8Step]; rw [if_neg h1, if_neg h2, if_neg h3, if_pos h4]] at hv
              obtain ⟨c1, r1, rfl, hc1, hv1⟩ :=
                @foldl_expect_dest .two .one 0x80 0xBF (fun _ => rfl) rest hv (by decide)
              obtain ⟨c2, r2, rfl, hc2, hv2⟩ :=
                @foldl_expect_dest .one .start 0x80 0xBF (fun _ => rfl) r1 hv1 (by decide)
              simp only [List.length_cons] at hl
              obtain ⟨vs, hsc, hj⟩ := ih r2 (by omega)
                (by simp only [validUtf8, beq_iff_eq]; exact hv2)
              refine ⟨((b - 0xE0) * 4096 + (c1 - 0x80) * 64 + (c2 - 0x80)) :: vs, ?_, ?_⟩
              · intro v hv'
                rcases List.mem_cons.mp hv' with rfl | hm
                · exact ⟨by omega, Or.inl (by omega)⟩
                · exact hsc v hm
              · have henc := @utf8Encode_three b c1 c2 (by omega) (by omega)
                  (by omega) (by omega)
                simp only [List.map_cons, List.flatten_cons]
                rw [henc, hj]; rfl
            · by_cases h5 : b = 0xED
              · subst h5
                rw [show utf8Step .start 0xED = .twoD by decide] at hv
                obtain ⟨c1, r1, rfl, hc1, hv1⟩ :=
                  @foldl_expect_dest .twoD .one 0x80 0x9F (fun _ => rfl) rest hv (by decide)
                obtain ⟨c2, r2, rfl, hc2, hv2⟩ :=
                  @foldl_expect_dest .one .start 0x80 0xBF (fun _ => rfl) r1 hv1 (by decide)
                simp only [List.length_cons] at hl
                obtain ⟨vs, hsc, hj⟩ := ih r2 (by omega)
                  (by simp only [validUtf8, beq_iff_eq]; exact hv2)
                refine ⟨((0xED - 0xE0) * 4096 + (c1 - 0x80) * 64 + (c2 - 0x80)) :: vs, ?_, ?_⟩
                · intro v hv'
                  rcases List.mem_cons.mp hv' with rfl | hm
                  · exact ⟨by omega, Or.inl (by omega)⟩
                  · exact hsc v hm
                · have henc := @utf8Encode_three 0xED c1 c2 (by omega) (by omega)
                    (by omega) (by omega)
                  simp only [List.map_cons, List.flatten_cons]
                  rw [henc, hj]; rfl
              · by_cases h6 : 0xEE ≤ b ∧ b ≤ 0xEF
                · rw [show utf8Step .start b = .two by
                    simp only [utf8Step]
                    rw [if_neg h1, if_neg h2, if_neg h3, if_neg h4, if_neg h5,
                      if_pos h6]] at hv
                  obtain ⟨c1, r1, rfl, hc1, hv1⟩ :=
                    @foldl_expect_dest .two .one 0x80 0xBF (fun _ => rfl) rest hv (by decide)
                  obtain ⟨c2, r2, rfl, hc2, hv2⟩ :=
                    @foldl_expect_dest .one .start 0x80 0xBF (fun _ => rfl) r1 hv1 (by decide)
                  simp only [List.length_cons] at hl
                  obtain ⟨vs, hsc, hj⟩ := ih r2 (by omega)
                    (by simp only [validUtf8, beq_iff_eq]; exact hv2)
                  refine ⟨((b - 0xE0) * 4096 + (c1 - 0x80) * 64 + (c2 - 0x80)) :: vs, ?_, ?_⟩
                  · intro v hv'
                    rcases List.mem_cons.mp hv' with rfl | hm
                    · exact ⟨by omega, Or.inr (by omega)⟩
                    · exact hsc v hm
                  · have henc := @utf8Encode_three b c1 c2 (by omega) (by omega)
                      (by omega) (by omega)
                    simp only [List.map_cons, List.flatten_cons]
                    rw [henc, hj]; rfl
                · by_cases h7 : b = 0xF0
                  · subst h7
                    rw [show utf8Step .start 0xF0 = .threeB by decide] at hv
                    obtain ⟨c1, r1, rfl, hc1, hv1⟩ :=
                      @foldl_expect_dest .threeB .two 0x90 0xBF (fun _ => rfl) rest hv
                        (by decide)
                    obtain ⟨c2, r2, rfl, hc2, hv2⟩ :=
                      @foldl_expect_dest .two .one 0x80 0xBF (fun _ => rfl) r1 hv1 (by decide)
                    obtain ⟨c3, r3, rfl, hc3, hv3⟩ :=
                      @foldl_expect_dest .one .start 0x80 0xBF (fun _ => rfl) r2 hv2
                        (by decide)
                    simp only [List.length_cons] at hl
                    obtain ⟨vs, hsc, hj⟩ := ih r3 (by omega)
                      (by simp only [validUtf8, beq_iff_eq]; exact hv3)
                    refine ⟨((0xF0 - 0xF0) * 262144 + (c1 - 0x80) * 4096 +
                      (c2 - 0x80) * 64 + (c3 - 0x80)) :: vs, ?_, ?_⟩
                    · intro v hv'
                      rcases List.mem_cons.mp hv' with rfl | hm
                      · exact ⟨by omega, Or.inr (by omega)⟩
                      · exact hsc v hm
                    · have henc := @utf8Encode_four 0xF0 c1 c2 c3 (by omega) (by omega)
                        (by omega) (by omega) (by omega)
                      simp only [List.map_cons, List.flatten_cons]
                      rw [henc, hj]; rfl
                  · by_cases h8 : 0xF1 ≤ b ∧ b ≤ 0xF3
                    · rw [show utf8Step .start b = .three by
                        simp only [utf8Step]
                        rw [if_neg h1, if_neg h2, if_neg h3, if_neg h4, if_neg h5,
                          if_neg h6, if_neg h7, if_pos h8]] at hv
                      obtain ⟨c1, r1, rfl, hc1, hv1⟩ :=
                        @foldl_expect_dest .three .two 0x80 0xBF (fun _ => rfl) rest hv
                          (by decide)
                      obtain ⟨c2, r2, rfl, hc2, hv2⟩ :=
                        @foldl_expect_dest .two .one 0x80 0xBF (fun _ => rfl) r1 hv1
                          (by decide)
                      obtain ⟨c3, r3, rfl, hc3, hv3⟩ :=
                        @foldl_expect_dest .one .start 0x80 0xBF (fun _ => rfl) r2 hv2
                          (by decide)
                      simp only [List.length_cons] at hl
                      obtain ⟨vs, hsc, hj⟩ := ih r3 (by omega)
                        (by simp only [validUtf8, beq_iff_eq]; exact hv3)
                      refine ⟨((b - 0xF0) * 262144 + (c1 - 0x80) * 4096 +
                        (c2 - 0x80) * 64 + (c3 - 0x80)) :: vs, ?_, ?_⟩
                      · intro v hv'
                        rcases List.mem_cons.mp hv' with rfl | hm
                        · exact ⟨by omega, Or.inr (by omega)⟩
                        · exact hsc v hm
                      · have henc := @utf8Encode_four b c1 c2 c3 (by omega) (by omega)
                          (by omega) (by omega) (by omega)
                        simp only [List.map_cons, List.flatten_cons]
                        rw [henc, hj]; rfl
                    · by_cases h9 : b = 0xF4
                      · subst h9
                        rw [show utf8Step .start 0xF4 = .threeC by decide] at hv
                        obtain ⟨c1, r1, rfl, hc1, hv1⟩ :=
                          @foldl_expect_dest .threeC .two 0x80 0x8F (fun _ => rfl) rest hv
                            (by decide)
                        obtain ⟨c2, r2, rfl, hc2, hv2⟩ :=
                          @foldl_expect_dest .two .one 0x80 0xBF (fun _ => rfl) r1 hv1
                            (by decide)
                        obtain ⟨c3, r3, rfl, hc3, hv3⟩ :=
                          @foldl_expect_dest .one .start 0x80 0xBF (fun _ => rfl) r2 hv2
                            (by decide)
                        simp only [List.length_cons] at hl
                        obtain ⟨vs, hsc, hj⟩ := ih r3 (by omega)
                          (by simp only [validUtf8, beq_iff_eq]; exact hv3)
                        refine ⟨((0xF4 - 0xF0) * 262144 + (c1 - 0x80) * 4096 +
                          (c2 - 0x80) * 64 + (c3 - 0x80)) :: vs, ?_, ?_⟩
                        · intro v hv'
                          rcases List.mem_cons.mp hv' with rfl | hm
                          · exact ⟨by omega, Or.inr (by omega)⟩
                          · exact hsc v hm
                        · have henc := @utf8Encode_four 0xF4 c1 c2 c3 (by omega) (by omega)
                            (by omega) (by omega) (by omega)
                          simp only [List.map_cons, List.flatten_cons]
                          rw [henc, hj]; rfl
                      · rw [show utf8Step .start b = .bad by
                          simp only [utf8Step]
                          rw [if_neg h1, if_neg h2, if_neg h3, if_neg h4, if_neg h5,
                            if_neg h6, if_neg h7, if_neg h8, if_neg h9]] at hv
                        rw [foldl_bad] at hv
                        exact absurd hv (by decide)

theorem validUtf8_iff (l : List Nat) : validUtf8 l = true ↔ Utf8Decomposes l := by
  constructor
  · exact fun h => utf8_sound_aux l.length l (Nat.le_refl _) h
  · rintro ⟨vs, hsc, hj⟩
    exact hj ▸ utf8_complete vs hsc

theorem validUtf8_append {A B : List Nat} (hA : validUtf8 A = true)
    (hB : validUtf8 B = true) : validUtf8 (A ++ B) = true := by
  obtain ⟨va, hsa, hja⟩ := (validUtf8_iff A).mp hA
  obtain ⟨vb, hsb, hjb⟩ := (validUtf8_iff B).mp hB
  refine (validUtf8_iff (A ++ B)).mpr ⟨va ++ vb, ?_, ?_⟩
  · intro v hv
    rcases List.mem_append.mp hv with h | h
    · exact hsa v h
    · exact hsb v h
  · rw [hja, hjb, List.map_append, List.flatten_append]

theorem validUtf8_replicate {b : Nat} (hb : b ≤ 0x7F) (k : Nat) :
    validUtf8 (List.replicate k b) = true := by
  simp only [validUtf8, beq_iff_eq]
  induction k with
  | zero => rfl
  | succ k ihk =>
    rw [List.replicate_succ, List.foldl_cons,
      show utf8Step .start b = .start by simp only [utf8Step]; rw [if_pos hb]]
    exact ihk

/-! ## Claim theorems -/

/-- Claim C10: for every input of byte length `L` with `0 ≤ L < 3` and
`size = None`, the default-size computation yields dimensions `(0, 0)`
(since `floor(L/3) = 0`), not a pair of positive integers. -/
theorem C10_small_input_default_size (L : Nat) (h : L < 3) :
    defaultSize L = (0, 0) := by
  have h0 : L / 3 = 0 := by omega
  unfold defaultSize
  rw [h0]
  rfl

theorem C10_witness : 2 < 3 ∧ defaultSize 2 = (0, 0) :=
  ⟨by decide, C10_small_input_default_size 2 (by decide)⟩

/-- Claim C3 counterexample: at byte length `L = 4` the default size is
`(1, 1)` — the code computes `ceil(sqrt(floor(4/3))) = 1`, not the claimed
`ceil(sqrt(ceil(4/3))) = 2` — the claimed capacity `n*n*3 ≥ L` fails
(`3 < 4`), and the encoder then rejects the buffer. -/
theorem C3_counterexample :
    defaultSize 4 = (1, 1) ∧ ceilSqrt ((4 + 2) / 3) = 2 ∧ defaultSize 4 ≠ (2, 2) ∧
      ¬ (1 * 1 * 3 ≥ 4) ∧
      encryptBytes [65, 66, 67, 68] none =
        Except.error (HexCryptError.CannotCreateImage 1 1) :=
  ⟨by decide, by decide, by decide, by decide, rfl⟩

/-- Claim C3 (amended): for byte length `L` (with `L ≤ 3 * 2^24`, where the
modelled `f32` arithmetic is exact), encoding with `size = None` computes
square dimensions `(n, n)` where `n = ceil(sqrt(floor(L/3)))` — the least
`n` with `floor(L/3) ≤ n*n` — and the capacity satisfies
`n*n ≥ floor(L/3)`; hence `n*n*3 ≥ L` whenever `L` is a multiple of 3. -/
theorem C3_default_size_amended (L : Nat) (_hL : L ≤ 3 * 2 ^ 24) :
    defaultSize L = (ceilSqrt (L / 3), ceilSqrt (L / 3)) ∧
    L / 3 ≤ (defaultSize L).1 * (defaultSize L).1 ∧
    ((defaultSize L).1 ≠ 0 → ((defaultSize L).1 - 1) * ((defaultSize L).1 - 1) < L / 3) ∧
    (L % 3 = 0 → L ≤ (defaultSize L).1 * (defaultSize L).2 * 3) := by
  refine ⟨rfl, ?_, ?_, ?_⟩
  · show L / 3 ≤ ceilSqrt (L / 3) * ceilSqrt (L / 3)
    exact le_ceilSqrt_sq _
  · show ceilSqrt (L / 3) ≠ 0 → (ceilSqrt (L / 3) - 1) * (ceilSqrt (L / 3) - 1) < L / 3
    exact fun h => ceilSqrt_min h
  · intro h3
    show L ≤ ceilSqrt (L / 3) * ceilSqrt (L / 3) * 3
    have hc := le_ceilSqrt_sq (L / 3)
    generalize ceilSqrt (L / 3) * ceilSqrt (L / 3) = Q at hc ⊢
    omega

theorem C3_amended_witness :
    6 ≤ 3 * 2 ^ 24 ∧ 6 % 3 = 0 ∧ 6 ≤ (defaultSize 6).1 * (defaultSize 6).2 * 3 :=
  ⟨by decide, by decide, (C3_default_size_amended 6 (by decide)).2.2.2 (by decide)⟩

/-- Claim C4: for every input of byte length `L` requiring
`k = ceil(L/3)` pixels and every explicit dimensions `(w, h)` with
`w*h < k`, encoding fails with `CannotCreateImage(w, h)` (either the
signed `diff` is negative, or the padded buffer cannot match the pixel
capacity). -/
theorem C4_capacity_rejection (buf : List Nat) (w h : Nat)
    (hk : w * h < (buf.length + 2) / 3) :
    encryptBytes buf (some (w, h)) =
      Except.error (HexCryptError.CannotCreateImage w h) := by
  have hL : 3 * (w * h) + 1 ≤ buf.length := by
    generalize w * h = W at hk ⊢
    omega
  show padAndPack w h buf = _
  unfold padAndPack
  by_cases hd : wrapI32 (toI32 (w * h) - toI32 (buf.length / 3)) < 0
  · rw [if_pos hd]
  · rw [if_neg hd]
    unfold constructImage rgbFromRaw
    have hlen : (buf ++
        List.replicate (3 * (wrapI32 (toI32 (w * h) - toI32 (buf.length / 3))).toNat) 0).length ≠
          w * h * 3 := by
      simp only [List.length_append, List.length_replicate]
      generalize (wrapI32 (toI32 (w * h) - toI32 (buf.length / 3))).toNat = t
      generalize w * h = W at hL ⊢
      omega
    rw [if_neg hlen]

theorem C4_witness :
    1 * 1 < (([97, 98, 99, 100, 101, 102] : List Nat).length + 2) / 3 ∧
    encryptBytes [97, 98, 99, 100, 101, 102] (some (1, 1)) =
      Except.error (HexCryptError.CannotCreateImage 1 1) :=
  ⟨by decide, C4_capacity_rejection [97, 98, 99, 100, 101, 102] 1 1 (by decide)⟩

/-- Claim C5: for every input and dimensions whose pixel count and 3-byte
group count are within `i32` range (so the claim's signed arithmetic is the
code's), the encoder computes `diff = w*h - floor(L/3)` as a signed
integer; `diff < 0` fails with `CannotCreateImage(w, h)`, `diff = 0` uses
the byte buffer as-is, and `diff > 0` appends exactly `diff` zero-filled
pixels (3 zero bytes each) before pixel-buffer construction. -/
theorem C5_padding_algorithm (buf : List Nat) (w h : Nat)
    (hw : w * h < 2147483648) (hl : buf.length / 3 < 2147483648) :
    (((w * h : Nat) : Int) - ((buf.length / 3 : Nat) : Int) < 0 →
      encryptBytes buf (some (w, h)) =
        Except.error (HexCryptError.CannotCreateImage w h)) ∧
    (((w * h : Nat) : Int) - ((buf.length / 3 : Nat) : Int) = 0 →
      encryptBytes buf (some (w, h)) = constructImage w h buf) ∧
    (0 < ((w * h : Nat) : Int) - ((buf.length / 3 : Nat) : Int) →
      encryptBytes buf (some (w, h)) =
        constructImage w h (buf ++ List.replicate (3 * (w * h - buf.length / 3)) 0)) := by
  have hrw : toI32 (w * h) = ((w * h : Nat) : Int) := toI32_of_lt hw
  have hrl : toI32 (buf.length / 3) = ((buf.length / 3 : Nat) : Int) := toI32_of_lt hl
  have hwr : wrapI32 (((w * h : Nat) : Int) - ((buf.length / 3 : Nat) : Int)) =
      ((w * h : Nat) : Int) - ((buf.length / 3 : Nat) : Int) :=
    wrapI32_of_range (by omega) (by omega)
  refine ⟨?_, ?_, ?_⟩
  · intro hneg
    show padAndPack w h buf = _
    unfold padAndPack
    rw [hrw, hrl, hwr, if_pos hneg]
  · intro h0
    show padAndPack w h buf = _
    unfold padAndPack
    rw [hrw, hrl, hwr, if_neg (by omega)]
    have ht : (((w * h : Nat) : Int) - ((buf.length / 3 : Nat) : Int)).toNat = 0 := by
      omega
    rw [ht]
    simp
  · intro hpos
    show padAndPack w h buf = _
    unfold padAndPack
    rw [hrw, hrl, hwr, if_neg (by omega)]
    have ht : (((w * h : Nat) : Int) - ((buf.length / 3 : Nat) : Int)).toNat =
        w * h - buf.length / 3 := by
      omega
    rw [ht]

theorem C5_witness :
    (2 * 2 : Nat) < 2147483648 ∧ ([97, 98, 99] : List Nat).length / 3 < 2147483648 ∧
    encryptBytes [97, 98, 99] (some (2, 2)) =
      constructImage 2 2
        ([97, 98, 99] ++ List.replicate (3 * (2 * 2 - ([97, 98, 99] : List Nat).length / 3)) 0) :=
  ⟨by decide, by decide,
    (C5_padding_algorithm [97, 98, 99] 2 2 (by decide) (by decide)).2.2 (by decide)⟩

/-- Claim C7: pixel-buffer construction fails with `CannotCreateImage(w, h)`
exactly when the (possibly padded) byte buffer length does not equal
`w*h*3`; in particular zero-area dimensions make construction fail for any
nonempty buffer. -/
theorem C7_construction_check (w h : Nat) (buf : List Nat) :
    (constructImage w h buf = Except.error (HexCryptError.CannotCreateImage w h) ↔
      buf.length ≠ w * h * 3) ∧
    (w * h = 0 → buf ≠ [] →
      constructImage w h buf = Except.error (HexCryptError.CannotCreateImage w h)) := by
  constructor
  · unfold constructImage rgbFromRaw
    by_cases hlen : buf.length = w * h * 3
    · rw [if_pos hlen]
      simp [hlen]
    · rw [if_neg hlen]
      simp [hlen]
  · intro h0 hne
    have hlen : buf.length ≠ w * h * 3 := by
      have hnz : buf.length ≠ 0 := by
        intro hz
        exact hne (List.eq_nil_of_length_eq_zero hz)
      rw [h0]
      omega
    unfold constructImage rgbFromRaw
    rw [if_neg hlen]

theorem C7_witness :
    (0 * 5 : Nat) = 0 ∧ ([1] : List Nat) ≠ [] ∧
    constructImage 0 5 [1] = Except.error (HexCryptError.CannotCreateImage 0 5) :=
  ⟨rfl, by decide, (C7_construction_check 0 5 [1]).2 rfl (by decide)⟩

/-- Claim C9: explicit dimensions whose pixel count lies in `[2^31, 2^32)`
are reinterpreted as a negative `i32` capacity, so encoding can fail with
`CannotCreateImage(w, h)` even though the capacity far exceeds the
required pixels: at `(3, 715827883)` the pixel count `2^31 + 1` reads as
`-(2^31 - 1)`, the subtraction `-(2^31 - 1) - 1 = -2^31` stays inside
`i32` (debug and release builds agree), and a 3-byte input needing one
pixel is rejected.  For larger dimensions the `u32` product itself leaves
the 32-bit range (and wraps in the model; a debug build panics there). -/
theorem C9_capacity_overflow :
    2147483648 ≤ 3 * 715827883 ∧ 3 * 715827883 < 4294967296 ∧
    (3 + 2) / 3 ≤ 3 * 715827883 ∧
    toI32 (3 * 715827883) = -2147483647 ∧
    encryptBytes [97, 98, 99] (some (3, 715827883)) =
      Except.error (HexCryptError.CannotCreateImage 3 715827883) ∧
    4294967296 ≤ 65536 * 65536 ∧ toI32 (65536 * 65536) = 0 :=
  ⟨by decide, by decide, by decide, by decide, rfl, by decide, by decide⟩

/-- Claim C2 counterexample: the decoder also strips *leading* NUL
characters (`trim_matches` trims both ends): on the buffer
`[0, 65, 66]` a trailing-only strip would return `[0, 65, 66]`, but the
decoder returns `[65, 66]`. -/
theorem C2_counterexample :
    decryptBytes [0, 65, 66] = Except.ok [65, 66] ∧
      ([65, 66] : List Nat) ≠ [0, 65, 66] :=
  ⟨rfl, by decide⟩

/-- Claim C2 (amended): on every valid buffer the decoder strips every
*leading and trailing* NUL character — the buffer splits as leading NULs
++ result ++ trailing NULs, and the result neither starts nor ends with a
NUL — so interior NUL bytes are untouched. -/
theorem C2_trimming_amended (buf : List Nat) (hv : validUtf8 buf = true) :
    ∃ a b t, decryptBytes buf = Except.ok t ∧
      buf = List.replicate a 0 ++ t ++ List.replicate b 0 ∧
      t.head? ≠ some 0 ∧ t.getLast? ≠ some 0 := by
  obtain ⟨a, b, hdecomp, hhead, hlast⟩ := trim_decomposition buf
  refine ⟨a, b, trimNulls buf, ?_, hdecomp, hhead, hlast⟩
  unfold decryptBytes fromUtf8
  rw [if_pos hv]

theorem C2_amended_witness :
    validUtf8 [0, 72, 0, 105, 0] = true ∧
    ∃ a b t, decryptBytes [0, 72, 0, 105, 0] = Except.ok t ∧
      [0, 72, 0, 105, 0] = List.replicate a 0 ++ t ++ List.replicate b 0 ∧
      t.head? ≠ some 0 ∧ t.getLast? ≠ some 0 :=
  ⟨by decide, C2_trimming_amended [0, 72, 0, 105, 0] (by decide)⟩

/-- Claim C8: the decoder fails — with `BytesToString` and with no other
error — exactly when the pixel byte buffer is not UTF-8 (not the
concatenation of UTF-8 encodings of Unicode scalar values), and on a
decodable buffer the UTF-8 interpretation covers the whole buffer. -/
theorem C8_utf8_failure (buf : List Nat) :
    (decryptBytes buf = Except.error HexCryptError.BytesToString ↔
      ¬ Utf8Decomposes buf) ∧
    (∀ e, decryptBytes buf = Except.error e → e = HexCryptError.BytesToString) ∧
    (Utf8Decomposes buf → fromUtf8 buf = Except.ok buf) := by
  by_cases hv : validUtf8 buf = true
  · have hdec : Utf8Decomposes buf := (validUtf8_iff buf).mp hv
    have hok : decryptBytes buf = Except.ok (trimNulls buf) := by
      unfold decryptBytes fromUtf8
      rw [if_pos hv]
    refine ⟨?_, ?_, ?_⟩
    · rw [hok]
      simp [hdec]
    · intro e he
      rw [hok] at he
      exact absurd he (by simp)
    · intro _
      unfold fromUtf8
      rw [if_pos hv]
  · have hndec : ¬ Utf8Decomposes buf := fun hd => hv ((validUtf8_iff buf).mpr hd)
    have herr : decryptBytes buf = Except.error HexCryptError.BytesToString := by
      unfold decryptBytes fromUtf8
      rw [if_neg hv]
    refine ⟨?_, ?_, ?_⟩
    · rw [herr]
      simp [hndec]
    · intro e he
      rw [herr] at he
      exact (Except.error.injEq _ _ ▸ he.symm : _) ▸ rfl
    · intro hd
      exact absurd hd hndec

theorem C8_witness :
    Utf8Decomposes [72, 105] ∧ fromUtf8 [72, 105] = Except.ok [72, 105] :=
  ⟨⟨[72, 105], by decide, by decide⟩,
    (C8_utf8_failure [72, 105]).2.2 ⟨[72, 105], by decide, by decide⟩⟩

/-! ## Size-string parsing lemmas -/

theorem splitOnceX_eq : ∀ (s a b : List Char), splitOnceX s = some (a, b) →
    s = a ++ 'x' :: b := by
  intro s
  induction s with
  | nil => intro a b hsp; simp [splitOnceX] at hsp
  | cons c rest ih =>
    intro a b hsp
    by_cases hc : c = 'x'
    · subst hc
      simp only [splitOnceX, if_pos rfl, Option.some.injEq, Prod.mk.injEq] at hsp
      obtain ⟨rfl, rfl⟩ := hsp
      simp
    · simp only [splitOnceX, if_neg hc] at hsp
      cases hsplit : splitOnceX rest with
      | none => rw [hsplit] at hsp; simp at hsp
      | some ab =>
        obtain ⟨a', b'⟩ := ab
        rw [hsplit] at hsp
        simp only [Option.some.injEq, Prod.mk.injEq] at hsp
        obtain ⟨rfl, rfl⟩ := hsp
        rw [ih a' b' hsplit]
        simp

theorem parseSize_ok_match {s : List Char} {w h : Nat}
    (hps : parseSize s = Except.ok (w, h)) : SpecMatch s := by
  unfold parseSize at hps
  cases hsplit : splitOnceX s with
  | none => rw [hsplit] at hps; exact absurd hps (by simp)
  | some ab =>
    obtain ⟨a, b⟩ := ab
    rw [hsplit] at hps
    simp only [] at hps
    cases hpa : parseU32 a with
    | none => rw [hpa] at hps; exact absurd hps (by simp)
    | some wa =>
      rw [hpa] at hps
      simp only [] at hps
      cases hpb : parseU32 b with
      | none => rw [hpb] at hps; exact absurd hps (by simp)
      | some wb =>
        have hs := splitOnceX_eq s a b hsplit
        subst hs
        refine ⟨⟨a.length, by simp⟩, ?_, ?_, ?_⟩
        · rw [List.get_eq_getElem, List.getElem_append_right (Nat.le_refl a.length)]
          simp
        · rw [show (a ++ 'x' :: b).take a.length = a from List.take_left a ('x' :: b)]
          rw [hpa]
          rfl
        · rw [show (a ++ 'x' :: b).drop (a.length + 1) = b by
            rw [show a ++ 'x' :: b = (a ++ ['x']) ++ b by simp,
              show a.length + 1 = (a ++ ['x']).length by simp]
            exact List.drop_left _ _]
          rw [hpb]
          rfl

theorem parseSize_error_shape {s : List Char} {e : HexCryptError}
    (hps : parseSize s = Except.error e) : e = HexCryptError.InvalidImageSize s := by
  unfold parseSize at hps
  cases hsplit : splitOnceX s with
  | none =>
    rw [hsplit] at hps
    simp only [Except.error.injEq] at hps
    exact hps.symm
  | some ab =>
    obtain ⟨a, b⟩ := ab
    rw [hsplit] at hps
    simp only [] at hps
    cases hpa : parseU32 a with
    | none =>
      rw [hpa] at hps
      simp only [Except.error.injEq] at hps
      exact hps.symm
    | some wa =>
      rw [hpa] at hps
      simp only [] at hps
      cases hpb : parseU32 b with
      | none =>
        rw [hpb] at hps
        simp only [Except.error.injEq] at hps
        exact hps.symm
      | some wb =>
        rw [hpb] at hps
        exact absurd hps (by simp)

/-- Claim C6: the size resolver maps `"16x32"` to `(16, 32)`; every
specifier that does not match the pattern `<integer>x<integer>` (with each
part parsing as an unsigned 32-bit value) fails with `InvalidImageSize`
carrying the original string — in particular `"16"`, `"16xA"`, `"x32"`
and `""`. -/
theorem C6_parse_size :
    parseSize ['1', '6', 'x', '3', '2'] = Except.ok (16, 32) ∧
    (∀ s : List Char, ¬ SpecMatch s →
      parseSize s = Except.error (HexCryptError.InvalidImageSize s)) ∧
    parseSize ['1', '6'] = Except.error (HexCryptError.InvalidImageSize ['1', '6']) ∧
    parseSize ['1', '6', 'x', 'A'] =
      Except.error (HexCryptError.InvalidImageSize ['1', '6', 'x', 'A']) ∧
    parseSize ['x', '3', '2'] =
      Except.error (HexCryptError.InvalidImageSize ['x', '3', '2']) ∧
    parseSize [] = Except.error (HexCryptError.InvalidImageSize []) := by
  refine ⟨rfl, ?_, rfl, rfl, rfl, rfl⟩
  intro s hns
  cases hps : parseSize s with
  | ok wh =>
    obtain ⟨w, h⟩ := wh
    exact absurd (parseSize_ok_match hps) hns
  | error e =>
    rw [parseSize_error_shape hps]

theorem C6_witness :
    ¬ SpecMatch ['1', '6', 'x', 'A'] ∧
    parseSize ['1', '6', 'x', 'A'] =
      Except.error (HexCryptError.InvalidImageSize ['1', '6', 'x', 'A']) :=
  ⟨by decide, C6_parse_size.2.1 ['1', '6', 'x', 'A'] (by decide)⟩

/-- Claim C1 (amended): for every text `T` (valid UTF-8 bytes) with no NUL
bytes whose byte length is a multiple of 3 and at most `3 * 2^24` (within
this bound the modelled `f32`/`i32` arithmetic of the encoder is exact),
encoding with `size = None` and decoding the resulting pixel buffer yields
exactly `T`; for larger texts the 32-bit casts can make the encoder reject
the input (see the counterexample). -/
theorem C1_round_trip_amended (T : List Nat) (hv : validUtf8 T = true)
    (hnul : (0 : Nat) ∉ T) (h3 : T.length % 3 = 0) (hL : T.length ≤ 3 * 2 ^ 24) :
    roundTrip T = Except.ok T := by
  have hmn : T.length / 3 ≤ ceilSqrt (T.length / 3) * ceilSqrt (T.length / 3) :=
    le_ceilSqrt_sq _
  have hn : ceilSqrt (T.length / 3) ≤ 4096 :=
    ceilSqrt_le (by omega : T.length / 3 ≤ 4096 * 4096)
  have hnn : ceilSqrt (T.length / 3) * ceilSqrt (T.length / 3) < 2147483648 := by
    have := Nat.mul_le_mul hn hn
    omega
  have hw : toI32 (ceilSqrt (T.length / 3) * ceilSqrt (T.length / 3)) =
      ((ceilSqrt (T.length / 3) * ceilSqrt (T.length / 3) : Nat) : Int) :=
    toI32_of_lt hnn
  have hml : toI32 (T.length / 3) = ((T.length / 3 : Nat) : Int) :=
    toI32_of_lt (by omega)
  have hcast : ((T.length / 3 : Nat) : Int) ≤
      ((ceilSqrt (T.length / 3) * ceilSqrt (T.length / 3) : Nat) : Int) := by
    exact_mod_cast hmn
  have hencval : encryptBytes T none =
      Except.ok (ceilSqrt (T.length / 3), ceilSqrt (T.length / 3),
        T ++ List.replicate
          (3 * (ceilSqrt (T.length / 3) * ceilSqrt (T.length / 3) - T.length / 3)) 0) := by
    have hwr : wrapI32 (((ceilSqrt (T.length / 3) * ceilSqrt (T.length / 3) : Nat) : Int) -
        ((T.length / 3 : Nat) : Int)) =
        ((ceilSqrt (T.length / 3) * ceilSqrt (T.length / 3) : Nat) : Int) -
          ((T.length / 3 : Nat) : Int) :=
      wrapI32_of_range (by omega) (by omega)
    show padAndPack (ceilSqrt (T.length / 3)) (ceilSqrt (T.length / 3)) T = _
    unfold padAndPack
    rw [hw, hml, hwr]
    rw [if_neg (by omega)]
    have ht : (((ceilSqrt (T.length / 3) * ceilSqrt (T.length / 3) : Nat) : Int) -
        ((T.length / 3 : Nat) : Int)).toNat =
        ceilSqrt (T.length / 3) * ceilSqrt (T.length / 3) - T.length / 3 := by
      omega
    rw [ht]
    unfold constructImage rgbFromRaw
    have hlen : (T ++ List.replicate
        (3 * (ceilSqrt (T.length / 3) * ceilSqrt (T.length / 3) - T.length / 3)) 0).length =
        ceilSqrt (T.length / 3) * ceilSqrt (T.length / 3) * 3 := by
      simp only [List.length_append, List.length_replicate]
      generalize ceilSqrt (T.length / 3) * ceilSqrt (T.length / 3) = P at hmn ⊢
      omega
    rw [if_pos hlen]
  unfold roundTrip
  rw [hencval]
  show decryptBytes (T ++ List.replicate
      (3 * (ceilSqrt (T.length / 3) * ceilSqrt (T.length / 3) - T.length / 3)) 0) =
    Except.ok T
  have hvp : validUtf8 (T ++ List.replicate
      (3 * (ceilSqrt (T.length / 3) * ceilSqrt (T.length / 3) - T.length / 3)) 0) = true :=
    validUtf8_append hv (validUtf8_replicate (by omega) _)
  unfold decryptBytes fromUtf8
  rw [if_pos hvp]
  show Except.ok (trimNulls (T ++ List.replicate
      (3 * (ceilSqrt (T.length / 3) * ceilSqrt (T.length / 3) - T.length / 3)) 0)) =
    Except.ok T
  rw [trimNulls_append_zeros T _ hnul]

theorem C1_witness :
    validUtf8 [65, 66, 67] = true ∧ (0 : Nat) ∉ ([65, 66, 67] : List Nat) ∧
    ([65, 66, 67] : List Nat).length % 3 = 0 ∧
    ([65, 66, 67] : List Nat).length ≤ 3 * 2 ^ 24 ∧
    roundTrip [65, 66, 67] = Except.ok [65, 66, 67] :=
  ⟨by decide, by decide, by decide, by decide,
    C1_round_trip_amended [65, 66, 67] (by decide) (by decide) (by decide) (by decide)⟩

/-- The encoder rejects any text of `3458817284137549824 = 3 * m` bytes,
where `m = a^2 - 2^31` and `a = 1073750016 = 2^30 + 2^13`.  Trace, shared
by the model and the release binary: `m` lies within half an `f32` ulp
(`2^36`) of `2^60 + 2^44 = (a - δ)^2` with `δ ≈ 0.031`, so `m as f32`
rounds to `2^60 + 2^44`, its square root `a - 0.031` rounds to exactly
`a` (the nearest `f32`s near `2^30` are multiples of `2^7`, and `a` is
one), and `ceil` gives the default size `(a, a)` — the same as the
model's exact `ceilSqrt m`, since `(a-1)^2 < m ≤ a^2`.  Then
`(a * a) as u32 = 2^26` (the `u32` product wraps; a debug build panics
here), `m as i32 = 2^26 - 2^31`, and the `i32` subtraction's true value
`2^26 - (2^26 - 2^31) = 2^31` overflows `i32`: release wraps it to
`-2^31` (a debug build would panic), so `diff < 0` and the encoder fails
with `CannotCreateImage(a, a)`. -/
theorem encrypt_fails_at_large_length (T : List Nat)
    (hlen : T.length = 3458817284137549824) :
    encryptBytes T none =
      Except.error (HexCryptError.CannotCreateImage 1073750016 1073750016) := by
  have hdiv : (3458817284137549824 : Nat) / 3 = 1152939094712516608 := by norm_num
  have hsqrt : ceilSqrt 1152939094712516608 = 1073750016 :=
    ceilSqrt_eq (by norm_num) (by norm_num) (by norm_num)
  have hres : resolveSize T.length none = (1073750016, 1073750016) := by
    unfold resolveSize defaultSize
    rw [hlen, hdiv, hsqrt]
  show padAndPack (resolveSize T.length none).1 (resolveSize T.length none).2 T = _
  rw [hres]
  show padAndPack 1073750016 1073750016 T =
    Except.error (HexCryptError.CannotCreateImage 1073750016 1073750016)
  unfold padAndPack
  rw [hlen, hdiv]
  have h1 : toI32 (1073750016 * 1073750016) = 67108864 := by decide
  have h2 : toI32 1152939094712516608 = -2080374784 := by decide
  rw [h1, h2, if_pos (by decide)]

/-- On any text of `3458817284137549824` bytes the round trip does not
return the text: the encoder already fails (release mode; a debug build
panics instead, returning nothing at all). -/
theorem roundTrip_ne_at_large_length (T : List Nat)
    (hlen : T.length = 3458817284137549824) :
    roundTrip T ≠ Except.ok T := by
  have hrt : roundTrip T =
      Except.error (HexCryptError.CannotCreateImage 1073750016 1073750016) := by
    unfold roundTrip
    rw [encrypt_fails_at_large_length T hlen]
  intro hcontra
  rw [hrt] at hcontra
  exact Except.noConfusion hcontra

/-- Claim C1 counterexample: the text of `3458817284137549824` bytes `65`
(`'A'`) satisfies every hypothesis of the claim — valid UTF-8, no NUL
bytes, length a multiple of 3 — yet the round trip fails: the default
size is `(1073750016, 1073750016)` (matching the source's `f32`
computation, see `encrypt_fails_at_large_length`), and the `i32`
subtraction's true value `2^31` overflows, wrapping to `-2^31`, so the
encoder rejects the text with `CannotCreateImage` and no pixel buffer is
ever produced (a debug build panics at the overflow instead). -/
theorem C1_counterexample :
    validUtf8 (List.replicate 3458817284137549824 65) = true ∧
    (0 : Nat) ∉ List.replicate 3458817284137549824 (65 : Nat) ∧
    (List.replicate 3458817284137549824 (65 : Nat)).length % 3 = 0 ∧
    roundTrip (List.replicate 3458817284137549824 65) ≠
      Except.ok (List.replicate 3458817284137549824 65) := by
  refine ⟨validUtf8_replicate (by omega) _, ?_, ?_,
    roundTrip_ne_at_large_length _ (by rw [List.length_replicate])⟩
  · intro hmem
    have := List.eq_of_mem_replicate hmem
    omega
  · rw [List.length_replicate]
